/-
  Verification of the ckeylock server core against its specification.

  Shallow embedding of:
    - src/server/src/storage.rs   (Storage: map + LRU cache + snapshot sync)
    - src/server/src/executor.rs  (Executor::execute)
    - src/server/src/ws.rs        (handshake authorization, dispatch)
    - src/core/src/request.rs     (Request, RequestWrapper)

  Keys and values are opaque octet sequences, modelled as `List Nat`.
  The external crates (bincode, sha3, aes_gcm) are modelled by an abstract
  parameter structure `Crates`; theorems that need their algebraic properties
  take them as explicit hypotheses, and a concrete instantiation `Ec`
  discharges those hypotheses in the witnesses.
-/
import Mathlib

abbrev Bytes : Type := List Nat

abbrev KvMap : Type := List (Bytes × Bytes)

abbrev Cache : Type := List (Bytes × Bytes)

/-- Capacity of the read-through LRU cache (storage.rs, `LRU_CACHE_SIZE`). -/
def LRU_CACHE_SIZE : Nat := 100

/-- Association-list lookup; models `DashMap::get` (first entry with the key). -/
def mapLookup (m : KvMap) (k : Bytes) : Option Bytes :=
  match m with
  | [] => none
  | (k', v) :: rest => if k' = k then some v else mapLookup rest k

/-- Models `DashMap::insert`: overwrite in place if the key exists, else append. -/
def mapInsert (m : KvMap) (k v : Bytes) : KvMap :=
  match m with
  | [] => [(k, v)]
  | (k', v') :: rest => if k' = k then (k, v) :: rest else (k', v') :: mapInsert rest k v

/-- Models `DashMap::remove`: drop the entry for the key.  On the reachable
states keys are unique, so filtering all occurrences coincides with removing
the single entry. -/
def mapRemove (m : KvMap) (k : Bytes) : KvMap :=
  m.filter (fun p => decide (p.1 ≠ k))

/-- Models `DashMap::contains_key`. -/
def mapContains (m : KvMap) (k : Bytes) : Bool :=
  (mapLookup m k).isSome

/-- Models `DashMap::iter().map(|v| v.key().clone())`. -/
def mapKeys (m : KvMap) : List Bytes :=
  m.map Prod.fst

/-- Models `LruCache::pop(&key)`'s effect on the cache contents. -/
def cachePop (c : Cache) (k : Bytes) : Cache :=
  c.filter (fun p => decide (p.1 ≠ k))

/-- Models `LruCache::put(key, value)`: refresh or insert at the
most-recently-used end, evicting the least-recently-used entry beyond
capacity. -/
def cachePut (c : Cache) (k v : Bytes) : Cache :=
  ((k, v) :: cachePop c k).take LRU_CACHE_SIZE

/-- Models `LruCache::get(&key)`: on a hit, return the value and promote the
entry to most-recently-used. -/
def cacheGet (c : Cache) (k : Bytes) : Option (Bytes × Cache) :=
  match mapLookup c k with
  | none => none
  | some v => some (v, (k, v) :: cachePop c k)

/-- External primitives used by storage.rs: `bincode` encode/decode,
`sha3` hash (crypto.rs `hash`), and `AES::encrypt`/`AES::decrypt`
(crypto.rs).  `encrypt` takes the nonce drawn by the caller's RNG as an
explicit argument. -/
structure Crates where
  encode : KvMap → Bytes
  decode : Bytes → Option KvMap
  hash : Bytes → Bytes
  encrypt : Bytes → Bytes → Bytes
  decrypt : Bytes → Option Bytes

/-- The Storage state (storage.rs): map, dirty-check checksum, snapshot file
contents, LRU cache. -/
structure Storage where
  data : KvMap
  checksum : Bytes
  file : Bytes
  cache : Cache

/-- `Storage::new_empty` (storage.rs lines 33-58): fresh empty map, encode it,
hash the plaintext encoding as the checksum, encrypt with a fresh nonce and
write the blob to the (new, hence empty) file. -/
def Storage.new_empty (E : Crates) (nonce : Bytes) : Storage :=
  let content := E.encode []
  let checksum := E.hash content
  let encrypted := E.encrypt nonce content
  { data := [], checksum := checksum, file := encrypted, cache := [] }

/-- `Storage::from_file` (storage.rs lines 60-81): read the whole file, store
the hash of the ciphertext read as the checksum, decrypt, decode into the
map, start with an empty cache. -/
def Storage.from_file (E : Crates) (content : Bytes) : Option Storage :=
  let checksum := E.hash content
  match E.decrypt content with
  | none => none
  | some decrypted =>
    match E.decode decrypted with
    | none => none
    | some decoded =>
      some { data := decoded, checksum := checksum, file := content, cache := [] }

/-- `Storage::sync` (storage.rs lines 83-109): encode the current map, hash
it; if the hash differs from the stored checksum, encrypt with a fresh nonce,
rewrite the file in full and replace the checksum, else do nothing. -/
def Storage.sync (E : Crates) (nonce : Bytes) (s : Storage) : Storage :=
  let content := E.encode s.data
  let newChecksum := E.hash content
  if newChecksum ≠ s.checksum then
    { s with file := E.encrypt nonce content, checksum := newChecksum }
  else
    s

/-- `Storage::set` (storage.rs lines 111-121): insert into the map, put into
the cache, return the key.  Note: the source does not call `sync` here. -/
def Storage.set (s : Storage) (k v : Bytes) : Bytes × Storage :=
  (k, { s with data := mapInsert s.data k v, cache := cachePut s.cache k v })

/-- `Storage::get` (storage.rs lines 123-138): consult the cache first (a hit
promotes the entry); on a miss consult the map and, if found, populate the
cache. -/
def Storage.get (s : Storage) (k : Bytes) : Option Bytes × Storage :=
  match cacheGet s.cache k with
  | some (v, c') => (some v, { s with cache := c' })
  | none =>
    match mapLookup s.data k with
    | some v => (some v, { s with cache := cachePut s.cache k v })
    | none => (none, s)

/-- `Storage::delete` (storage.rs lines 140-151): pop the key from the cache,
remove it from the map (the `remove` result maps to the removed key), sync,
and return the removed key if it existed. -/
def Storage.delete (E : Crates) (nonce : Bytes) (s : Storage) (k : Bytes) :
    Option Bytes × Storage :=
  let cache' := cachePop s.cache k
  let removed := if mapContains s.data k then some k else none
  let s' := Storage.sync E nonce { s with cache := cache', data := mapRemove s.data k }
  (removed, s')

/-- `Storage::list` (storage.rs lines 153-158): every key in the map. -/
def Storage.list (s : Storage) : List Bytes :=
  mapKeys s.data

/-- `Storage::exists` (storage.rs lines 160-169); `exists` is reserved in
Lean, hence the primed name. -/
def Storage.exists' (s : Storage) (k : Bytes) : Bool :=
  mapContains s.data k

/-- `Storage::count` (storage.rs lines 171-176): `DashMap::len`. -/
def Storage.count (s : Storage) : Nat :=
  s.data.length

/-- `Storage::clear` (storage.rs lines 178-185): empty the map and the cache,
then sync. -/
def Storage.clear (E : Crates) (nonce : Bytes) (s : Storage) : Storage :=
  Storage.sync E nonce { s with data := [], cache := [] }

/-- `StorageError` (storage.rs lines 188-198). -/
inductive StorageError where
  | io
  | encodeBincode
  | decodeBincode
  | aes
deriving DecidableEq

/-- Server `Error` variants that can reach a request's reply path
(main.rs lines 48-58): a storage error, a mailbox send failure, or a reply
channel failure. -/
inductive ServerError where
  | storage (e : StorageError)
  | tokioSend
  | oneshotRecv
deriving DecidableEq

/-- `Request` (core/src/request.rs), restricted to the variants the
executor's dispatch handles; the wire schema also declares a reserved
`BatchGet` variant with no executor arm (spec section 4.3). -/
inductive Request where
  | set (key value : Bytes)
  | get (key : Bytes)
  | delete (key : Bytes)
  | list
  | exists' (key : Bytes)
  | count
  | clear
deriving DecidableEq

/-- `RequestWrapper` (core/src/request.rs): a request plus a client-chosen
identifier. -/
structure RequestWrapper where
  req : Request
  id : Bytes
deriving DecidableEq

/-- Modelled from the spec: the response `data` variants
(`SetResponse{key}`, `GetResponse{value?}`, `DeleteResponse{key?}`,
`ListResponse{keys}`, `ExistsResponse{exists}`, `CountResponse{count}`,
`ClearResponse`, spec sections 3 and 6).  The `ResponseData` enum used by
executor.rs is re-exported by core/src/lib.rs but its definition is missing
from the sources; the variant payloads are pinned by the executor call
sites. -/
inductive ResponseData where
  | setResponse (key : Bytes)
  | getResponse (value : Option Bytes)
  | deleteResponse (key : Option Bytes)
  | listResponse (keys : List Bytes)
  | existsResponse (ex : Bool)
  | countResponse (count : Nat)
  | clearResponse
deriving DecidableEq

/-- Modelled from the spec: the `Response` envelope `(message, data, reqid)`
with `reqid` equal to the wrapper's `id` (spec section 3).  The definition is
missing from src/core/src/response.rs (that file holds an older generic
`Response`); the constructor argument order `(data, message, reqid)` is
pinned by the `Response::new` calls in executor.rs. -/
structure Response where
  message : String
  data : Option ResponseData
  reqid : Bytes
deriving DecidableEq

/-- `Response::new` as called by executor.rs: `Response::new(data, message, id)`. -/
def Response.new (data : Option ResponseData) (message : String) (reqid : Bytes) :
    Response :=
  { message := message, data := data, reqid := reqid }

/-- Modelled from the spec: the `ErrorResponse` envelope `(message, reqid)`
(spec section 3); the field names are pinned by the struct literal in
ws.rs `error_into_message`. -/
structure ErrorResponse where
  message : String
  reqid : Bytes
deriving DecidableEq

/-- The outcome of one mailbox round trip per storage operation
(executor.rs lines 132-184): each call site of `Executor::execute` awaits a
`Result` that is either the storage operation's result or a plumbing or
storage error.  The executor task serialises these calls; `execute` itself
only consumes the delivered results, so they are parameters of the model. -/
structure ExecApi where
  set : Bytes → Bytes → Except ServerError Bytes
  get : Bytes → Except ServerError (Option Bytes)
  delete : Bytes → Except ServerError (Option Bytes)
  list : Except ServerError (List Bytes)
  exists' : Bytes → Except ServerError Bool
  count : Except ServerError Nat
  clear : Except ServerError Unit

/-- `Executor::execute` (executor.rs lines 71-131).  Every arm propagates the
awaited error with `?` and wraps the success value in a `Response` carrying
the wrapper's id — except the `Clear` arm, which binds the result without `?`
and unconditionally returns the success response. -/
def Executor.execute (api : ExecApi) (w : RequestWrapper) : Except ServerError Response :=
  match w.req with
  | Request.set k v =>
    match api.set k v with
    | Except.ok r =>
      Except.ok (Response.new (some (ResponseData.setResponse r)) "Stored successfully." w.id)
    | Except.error e => Except.error e
  | Request.get k =>
    match api.get k with
    | Except.ok value =>
      Except.ok (Response.new (some (ResponseData.getResponse value)) "Retrieved successfully." w.id)
    | Except.error e => Except.error e
  | Request.delete k =>
    match api.delete k with
    | Except.ok key =>
      Except.ok (Response.new (some (ResponseData.deleteResponse key)) "Deleted successfully." w.id)
    | Except.error e => Except.error e
  | Request.list =>
    match api.list with
    | Except.ok keys =>
      Except.ok (Response.new (some (ResponseData.listResponse keys)) "Listed successfully." w.id)
    | Except.error e => Except.error e
  | Request.exists' k =>
    match api.exists' k with
    | Except.ok b =>
      Except.ok (Response.new (some (ResponseData.existsResponse b)) "Existence checked successfully." w.id)
    | Except.error e => Except.error e
  | Request.count =>
    match api.count with
    | Except.ok n =>
      Except.ok (Response.new (some (ResponseData.countResponse n)) "Counted successfully." w.id)
    | Except.error e => Except.error e
  | Request.clear =>
    let _result := api.clear
    Except.ok (Response.new (some ResponseData.clearResponse) "Cleared successfully." w.id)

/-- Rendering of a `ServerError` (thiserror `Display`); the exact strings are
not load-bearing for any claim. -/
def ServerError.render : ServerError → String
  | ServerError.storage _ => "Storage error"
  | ServerError.tokioSend => "Tokio mpsc send error"
  | ServerError.oneshotRecv => "Oneshot recv error"

/-- A text frame written back to the client: either an encoded `Response` or
an encoded `ErrorResponse` (ws.rs lines 115-139, 175-187). -/
inductive WireMessage where
  | response (r : Response)
  | errorResponse (e : ErrorResponse)
deriving DecidableEq

/-- The `reqid` carried by an outbound frame. -/
def WireMessage.reqid : WireMessage → Bytes
  | WireMessage.response r => r.reqid
  | WireMessage.errorResponse e => e.reqid

/-- The dispatch of one decoded text frame (ws.rs lines 115-139): run
`Executor::execute`; send the `Response` on success, or an `ErrorResponse`
built by `error_into_message(e, request.id())` on failure. -/
def dispatchText (api : ExecApi) (w : RequestWrapper) : WireMessage :=
  match Executor.execute api w with
  | Except.ok r => WireMessage.response r
  | Except.error e =>
    WireMessage.errorResponse { message := ServerError.render e, reqid := w.id }

/-- The handshake authorization decision (ws.rs lines 28-69).  Returns `true`
when the upgrade proceeds.  Mirrors the callback: with an `Authorization`
header present, proceed only if a password is configured and matches; with no
header, proceed only if no password is configured. -/
def authorizeUpgrade (password : Option String) (header : Option String) : Bool :=
  match header with
  | some h =>
    match password with
    | some p => decide (h = p)
    | none => false
  | none =>
    match password with
    | some _ => false
    | none => true

/-- Pad or truncate a nonce to exactly 12 bytes (witness model only). -/
def pad12 (n : Bytes) : Bytes :=
  (n ++ List.replicate 12 0).take 12

/-- A concrete, executable instantiation of the external primitives used to
witness the theorems' hypotheses: a canonical injective encoding of the map
(via `Encodable`), the identity as an ideal collision-free digest, and a
transparent cipher that prepends a 12-byte nonce. -/
def Ec : Crates where
  encode m := [Encodable.encode m]
  decode b :=
    match b with
    | [n] => Encodable.decode n
    | _ => none
  hash b := b
  encrypt nonce pt := pad12 nonce ++ pt
  decrypt b := if 12 ≤ b.length then some (b.drop 12) else none

theorem pad12_length (n : Bytes) : (pad12 n).length = 12 := by
  simp [pad12]

theorem Ec_decrypt_encrypt (n pt : Bytes) : Ec.decrypt (Ec.encrypt n pt) = some pt := by
  have hlen : (pad12 n).length = 12 := pad12_length n
  simp only [Ec]
  rw [if_pos]
  · rw [show (12 : Nat) = (pad12 n).length from hlen.symm, List.drop_left]
  · simp [hlen]

theorem Ec_decode_encode (m : KvMap) : Ec.decode (Ec.encode m) = some m := by
  simp [Ec, Encodable.encodek]

theorem Ec_hash_inj (x y : Bytes) (h : Ec.hash x = Ec.hash y) : x = y := h

theorem Ec_decrypt_encode (m : KvMap) : Ec.decrypt (Ec.encode m) = none := by
  simp [Ec]

theorem mapLookup_mapInsert_self (m : KvMap) (k v : Bytes) :
    mapLookup (mapInsert m k v) k = some v := by
  induction m with
  | nil => simp [mapInsert, mapLookup]
  | cons p rest ih =>
    obtain ⟨k', v'⟩ := p
    by_cases h : k' = k <;> simp [mapInsert, mapLookup, h, ih]

theorem mapLookup_mapInsert_ne (m : KvMap) (k v k' : Bytes) (h : k' ≠ k) :
    mapLookup (mapInsert m k v) k' = mapLookup m k' := by
  induction m with
  | nil => simp [mapInsert, mapLookup, Ne.symm h]
  | cons p rest ih =>
    obtain ⟨k1, v1⟩ := p
    by_cases h1 : k1 = k
    · subst h1
      simp [mapInsert, mapLookup, Ne.symm h]
    · simp [mapInsert, mapLookup, h1, ih]

theorem mapLookup_filterNe_self (m : KvMap) (k : Bytes) :
    mapLookup (m.filter (fun p => decide (p.1 ≠ k))) k = none := by
  induction m with
  | nil => simp [mapLookup]
  | cons p rest ih =>
    obtain ⟨k', v'⟩ := p
    by_cases h : k' = k
    · simpa [List.filter_cons, h, mapLookup] using ih
    · simpa [List.filter_cons, h, mapLookup] using ih

theorem mapLookup_filterNe_ne (m : KvMap) (k k' : Bytes) (h : k' ≠ k) :
    mapLookup (m.filter (fun p => decide (p.1 ≠ k))) k' = mapLookup m k' := by
  induction m with
  | nil => simp
  | cons p rest ih =>
    obtain ⟨k1, v1⟩ := p
    by_cases h1 : k1 = k
    · subst h1
      simpa [List.filter_cons, mapLookup, Ne.symm h] using ih
    · by_cases h2 : k1 = k'
      · subst h2
        simp [List.filter_cons, mapLookup, h1]
      · simpa [List.filter_cons, mapLookup, h1, h2] using ih

theorem filterNe_of_lookup_none (m : KvMap) (k : Bytes)
    (h : mapLookup m k = none) : m.filter (fun p => decide (p.1 ≠ k)) = m := by
  induction m with
  | nil => simp
  | cons p rest ih =>
    obtain ⟨k', v'⟩ := p
    by_cases h1 : k' = k
    · simp [mapLookup, h1] at h
    · have h' : mapLookup rest k = none := by simpa [mapLookup, h1] using h
      have hstep : ((k', v') :: rest).filter (fun p => decide (p.1 ≠ k)) =
          (k', v') :: rest.filter (fun p => decide (p.1 ≠ k)) := by
        simp [List.filter_cons, h1]
      rw [hstep, ih h']

theorem mapLookup_mem (m : KvMap) (k v : Bytes) (h : mapLookup m k = some v) :
    (k, v) ∈ m := by
  induction m with
  | nil => simp [mapLookup] at h
  | cons p rest ih =>
    obtain ⟨k', v'⟩ := p
    by_cases h1 : k' = k
    · subst h1
      simp [mapLookup] at h
      simp [h]
    · simp [mapLookup, h1] at h
      exact List.mem_cons_of_mem _ (ih h)

theorem mapKeys_cons (k v : Bytes) (rest : KvMap) :
    mapKeys ((k, v) :: rest) = k :: mapKeys rest := rfl

theorem mapKeys_mapInsert_mem (m : KvMap) (k v : Bytes) (h : k ∈ mapKeys m) :
    mapKeys (mapInsert m k v) = mapKeys m := by
  induction m with
  | nil => simp [mapKeys] at h
  | cons p rest ih =>
    obtain ⟨k', v'⟩ := p
    by_cases h1 : k' = k
    · simp [mapInsert, mapKeys_cons, h1]
    · rw [mapKeys_cons, List.mem_cons] at h
      rcases h with h | h
      · exact absurd h.symm h1
      · simp [mapInsert, mapKeys_cons, h1, ih h]

theorem mapKeys_mapInsert_not_mem (m : KvMap) (k v : Bytes) (h : k ∉ mapKeys m) :
    mapKeys (mapInsert m k v) = mapKeys m ++ [k] := by
  induction m with
  | nil => simp [mapInsert, mapKeys]
  | cons p rest ih =>
    obtain ⟨k', v'⟩ := p
    rw [mapKeys_cons, List.mem_cons] at h
    push_neg at h
    by_cases h1 : k' = k
    · exact absurd h1.symm h.1
    · simp [mapInsert, mapKeys_cons, h1, ih h.2]

theorem mapKeys_mapRemove (m : KvMap) (k : Bytes) :
    mapKeys (mapRemove m k) = (mapKeys m).filter (fun k' => decide (k' ≠ k)) := by
  induction m with
  | nil => simp [mapRemove, mapKeys]
  | cons p rest ih =>
    obtain ⟨k', v'⟩ := p
    by_cases h : k' = k <;>
      simpa [mapRemove, mapKeys_cons, List.filter_cons, h] using ih

/-- C2, counterexample: with no configured password and an `Authorization`
header present (here the literal header value x), the handshake callback in
ws.rs takes the branch at lines 49-58 and rejects the upgrade as
unauthorised, whereas the claim states such an upgrade proceeds with the
header ignored. -/
theorem c2_counterexample_no_password_header_rejected :
    authorizeUpgrade none (some "x") = false := rfl

/-- C2 (amended): the WebSocket upgrade is rejected as unauthorised if and
only if either a password is configured and the `Authorization` header is
absent or differs from it, or no password is configured and the request
carries an `Authorization` header.  Only a matching header with a configured
password, or the absence of a header with no configured password, lets the
upgrade proceed. -/
theorem c2_auth_characterisation (pw hdr : Option String) :
    authorizeUpgrade pw hdr = false ↔
      ((∃ p, pw = some p ∧ hdr ≠ some p) ∨ (pw = none ∧ ∃ h, hdr = some h)) := by
  cases pw with
  | none =>
    cases hdr with
    | none => simp [authorizeUpgrade]
    | some h => simp [authorizeUpgrade]
  | some p =>
    cases hdr with
    | none => simp [authorizeUpgrade]
    | some h => by_cases hp : h = p <;> simp [authorizeUpgrade, hp]

/-- An outcome family in which the storage `clear` operation fails with an
I/O error (as a failing `sync` inside `Storage::clear` would produce) and
every other operation succeeds. -/
def apiClearFails : ExecApi where
  set k _ := Except.ok k
  get _ := Except.ok none
  delete _ := Except.ok none
  list := Except.ok []
  exists' _ := Except.ok false
  count := Except.ok 0
  clear := Except.error (ServerError.storage StorageError.io)

/-- C3, evaluation at the failing input: for the `Clear` request with id
`[7]`, even though the underlying storage operation returns an error, the
`Clear` arm of `Executor::execute` (executor.rs lines 122-129) binds the
result without propagating it and returns the success response
"Cleared successfully.", contradicting the claim that no request variant
swallows a Storage error into a success Response. -/
theorem c3_clear_swallows_error :
    apiClearFails.clear = Except.error (ServerError.storage StorageError.io) ∧
    Executor.execute apiClearFails { req := Request.clear, id := [7] } =
      Except.ok (Response.new (some ResponseData.clearResponse) "Cleared successfully." [7]) :=
  ⟨rfl, rfl⟩

/-- C4: every outbound frame produced for a `RequestWrapper` — the `Response`
built by `Executor::execute` on success, or the `ErrorResponse` built by the
dispatch in ws.rs on failure — carries a `reqid` equal to the wrapper's `id`,
copied verbatim, whatever the storage outcomes are. -/
theorem c4_reqid_matches (api : ExecApi) (w : RequestWrapper) :
    (dispatchText api w).reqid = w.id := by
  obtain ⟨req, i⟩ := w
  cases req with
  | set k v =>
    cases h : api.set k v <;>
      simp [dispatchText, Executor.execute, h, Response.new, WireMessage.reqid]
  | get k =>
    cases h : api.get k <;>
      simp [dispatchText, Executor.execute, h, Response.new, WireMessage.reqid]
  | delete k =>
    cases h : api.delete k <;>
      simp [dispatchText, Executor.execute, h, Response.new, WireMessage.reqid]
  | list =>
    cases h : api.list <;>
      simp [dispatchText, Executor.execute, h, Response.new, WireMessage.reqid]
  | exists' k =>
    cases h : api.exists' k <;>
      simp [dispatchText, Executor.execute, h, Response.new, WireMessage.reqid]
  | count =>
    cases h : api.count <;>
      simp [dispatchText, Executor.execute, h, Response.new, WireMessage.reqid]
  | clear =>
    simp [dispatchText, Executor.execute, Response.new, WireMessage.reqid]

theorem sync_data (E : Crates) (n : Bytes) (s : Storage) :
    (Storage.sync E n s).data = s.data := by
  simp only [Storage.sync]
  split <;> rfl

theorem sync_cache (E : Crates) (n : Bytes) (s : Storage) :
    (Storage.sync E n s).cache = s.cache := by
  simp only [Storage.sync]
  split <;> rfl

theorem get_data (s : Storage) (k : Bytes) : (Storage.get s k).2.data = s.data := by
  simp only [Storage.get]
  cases hc : cacheGet s.cache k with
  | some p => rfl
  | none =>
    cases hm : mapLookup s.data k <;> rfl

theorem get_file (s : Storage) (k : Bytes) : (Storage.get s k).2.file = s.file := by
  simp only [Storage.get]
  cases hc : cacheGet s.cache k with
  | some p => rfl
  | none =>
    cases hm : mapLookup s.data k <;> rfl

theorem get_checksum (s : Storage) (k : Bytes) :
    (Storage.get s k).2.checksum = s.checksum := by
  simp only [Storage.get]
  cases hc : cacheGet s.cache k with
  | some p => rfl
  | none =>
    cases hm : mapLookup s.data k <;> rfl

theorem delete_snd (E : Crates) (n : Bytes) (s : Storage) (k : Bytes) :
    (Storage.delete E n s k).2 =
      Storage.sync E n { s with cache := cachePop s.cache k, data := mapRemove s.data k } :=
  rfl

theorem cacheLookup_cachePut_self (c : Cache) (k v : Bytes) :
    mapLookup (cachePut c k v) k = some v := by
  rw [cachePut, show LRU_CACHE_SIZE = 99 + 1 from rfl, List.take_succ_cons]
  simp [mapLookup]

/-- C1: evaluation at the failing input.  On a fresh empty storage,
`Storage::set` with key `[0]` and value `[1]` returns the key and updates the
map and the cache, but the snapshot file and the dirty-check checksum are
left exactly as they were — `Storage::set` (storage.rs lines 111-121) never
invokes `sync`, so the checksum no longer matches the hash of the current
encoding and nothing is persisted before `set` returns, contrary to the
claim. -/
theorem c1_set_does_not_sync :
    (Storage.set (Storage.new_empty Ec (List.replicate 12 0)) [0] [1]).1 = [0] ∧
    (Storage.set (Storage.new_empty Ec (List.replicate 12 0)) [0] [1]).2.data = [([0], [1])] ∧
    (Storage.set (Storage.new_empty Ec (List.replicate 12 0)) [0] [1]).2.cache = [([0], [1])] ∧
    (Storage.set (Storage.new_empty Ec (List.replicate 12 0)) [0] [1]).2.file =
      (Storage.new_empty Ec (List.replicate 12 0)).file ∧
    (Storage.set (Storage.new_empty Ec (List.replicate 12 0)) [0] [1]).2.checksum =
      (Storage.new_empty Ec (List.replicate 12 0)).checksum ∧
    Ec.hash (Ec.encode (Storage.set (Storage.new_empty Ec (List.replicate 12 0)) [0] [1]).2.data) ≠
      (Storage.set (Storage.new_empty Ec (List.replicate 12 0)) [0] [1]).2.checksum := by
  refine ⟨rfl, rfl, rfl, rfl, rfl, ?_⟩
  intro hEq
  have hdec := congrArg Ec.decode hEq
  rw [show (Storage.set (Storage.new_empty Ec (List.replicate 12 0)) [0] [1]).2.checksum =
      Ec.encode [] from rfl] at hdec
  rw [show Ec.hash (Ec.encode (Storage.set (Storage.new_empty Ec (List.replicate 12 0)) [0] [1]).2.data) =
      Ec.encode [([0], [1])] from rfl] at hdec
  rw [Ec_decode_encode, Ec_decode_encode] at hdec
  simp at hdec

/-- C6: when the digest of the current map's encoding equals the stored
dirty-check checksum, `sync` returns the state unchanged (same file, same
checksum, success); consequently, on a clean state, deleting an absent key
performs no file I/O (and returns absence), and `set` — which never calls
`sync` — touches neither the file nor the checksum. -/
theorem c6_sync_skip_no_io (E : Crates) (n : Bytes) (s : Storage) (k v : Bytes)
    (hclean : E.hash (E.encode s.data) = s.checksum) :
    Storage.sync E n s = s ∧
    (mapLookup s.data k = none →
      (Storage.delete E n s k).2.file = s.file ∧
      (Storage.delete E n s k).2.checksum = s.checksum ∧
      (Storage.delete E n s k).1 = none) ∧
    (Storage.set s k v).2.file = s.file ∧
    (Storage.set s k v).2.checksum = s.checksum := by
  refine ⟨?_, ?_, rfl, rfl⟩
  · simp [Storage.sync, hclean]
  · intro habs
    have hrem : mapRemove s.data k = s.data := filterNe_of_lookup_none s.data k habs
    have hsync : Storage.sync E n
        { s with cache := cachePop s.cache k, data := mapRemove s.data k } =
        { s with cache := cachePop s.cache k, data := mapRemove s.data k } := by
      simp [Storage.sync, hrem, hclean]
    refine ⟨?_, ?_, ?_⟩
    · rw [delete_snd, hsync]
    · rw [delete_snd, hsync]
    · simp [Storage.delete, mapContains, habs]

/-- C6 witness: the theorem applied to the concrete model at a fresh empty
storage (which is clean) and the absent key `[0]`. -/
theorem c6_sync_skip_no_io_witness :
    Storage.sync Ec [5] (Storage.new_empty Ec [2]) = Storage.new_empty Ec [2] ∧
    (mapLookup (Storage.new_empty Ec [2]).data [0] = none →
      (Storage.delete Ec [5] (Storage.new_empty Ec [2]) [0]).2.file =
        (Storage.new_empty Ec [2]).file ∧
      (Storage.delete Ec [5] (Storage.new_empty Ec [2]) [0]).2.checksum =
        (Storage.new_empty Ec [2]).checksum ∧
      (Storage.delete Ec [5] (Storage.new_empty Ec [2]) [0]).1 = none) ∧
    (Storage.set (Storage.new_empty Ec [2]) [0] [1]).2.file = (Storage.new_empty Ec [2]).file ∧
    (Storage.set (Storage.new_empty Ec [2]) [0] [1]).2.checksum =
      (Storage.new_empty Ec [2]).checksum :=
  c6_sync_skip_no_io Ec [5] (Storage.new_empty Ec [2]) [0] [1] rfl

theorem cachePop_lookup_self (c : Cache) (k : Bytes) :
    mapLookup (cachePop c k) k = none :=
  mapLookup_filterNe_self c k

theorem mapRemove_lookup_self (m : KvMap) (k : Bytes) :
    mapLookup (mapRemove m k) k = none :=
  mapLookup_filterNe_self m k

/-- C7: on any storage state, `Set(k,v)` followed by `Get(k)` returns `v`
(whatever the prior cache contents); `Set(k,v); Delete(k); Get(k)` returns
absence and `Exists(k)` is then false; and `Delete(k)` returns the deleted
key exactly when `k` was present, absence otherwise. -/
theorem c7_set_get_delete (E : Crates) (n : Bytes) (s : Storage) (k v : Bytes) :
    (Storage.get (Storage.set s k v).2 k).1 = some v ∧
    (Storage.delete E n (Storage.set s k v).2 k).1 = some k ∧
    (Storage.get (Storage.delete E n (Storage.set s k v).2 k).2 k).1 = none ∧
    Storage.exists' (Storage.delete E n (Storage.set s k v).2 k).2 k = false ∧
    (mapContains s.data k = true → (Storage.delete E n s k).1 = some k) ∧
    (mapContains s.data k = false → (Storage.delete E n s k).1 = none) := by
  refine ⟨?_, ?_, ?_, ?_, ?_, ?_⟩
  · simp [Storage.get, cacheGet, Storage.set, cacheLookup_cachePut_self]
  · simp [Storage.delete, Storage.set, mapContains, mapLookup_mapInsert_self]
  · simp [Storage.get, cacheGet, delete_snd, sync_cache, sync_data,
      cachePop_lookup_self, mapRemove_lookup_self]
  · simp [Storage.exists', mapContains, delete_snd, sync_data, mapRemove_lookup_self]
  · intro h
    simp [Storage.delete, h]
  · intro h
    simp [Storage.delete, h]

/-- C5: opening storage from an existing snapshot decodes the file into the
map and stores the digest of the ciphertext read as the dirty-check
checksum; since `sync` compares the digest of the plaintext encoding, the
two can only coincide through a hash collision (the canonical plaintext
encoding is strictly shorter than the AEAD blob, so the hashed inputs
differ), hence the first `sync` after such an open finds the checksums
unequal and rewrites the file. -/
theorem c5_open_checksum_mismatch (E : Crates) (content pt : Bytes) (m : KvMap) (n : Bytes)
    (hdec : E.decrypt content = some pt)
    (hdecode : E.decode pt = some m)
    (hcanon : E.encode m = pt)
    (hlen : pt.length < content.length)
    (hcoll : E.hash (E.encode m) = E.hash content → E.encode m = content) :
    ∃ s, Storage.from_file E content = some s ∧ s.data = m ∧
      s.checksum = E.hash content ∧
      E.hash (E.encode s.data) ≠ s.checksum ∧
      Storage.sync E n s =
        { s with file := E.encrypt n (E.encode s.data),
                 checksum := E.hash (E.encode s.data) } := by
  have hne : E.hash (E.encode m) ≠ E.hash content := by
    intro hEq
    have h2 := hcoll hEq
    rw [hcanon] at h2
    rw [h2] at hlen
    exact lt_irrefl _ hlen
  refine ⟨{ data := m, checksum := E.hash content, file := content, cache := [] },
    ?_, rfl, rfl, hne, ?_⟩
  · simp [Storage.from_file, hdec, hdecode]
  · simp [Storage.sync, hne]

/-- C5 witness: the theorem applied to the concrete model, opening a file
that is the encryption of the canonical encoding of the empty map. -/
theorem c5_open_checksum_mismatch_witness :
    ∃ s, Storage.from_file Ec (Ec.encrypt [4] (Ec.encode [])) = some s ∧ s.data = [] ∧
      s.checksum = Ec.hash (Ec.encrypt [4] (Ec.encode [])) ∧
      Ec.hash (Ec.encode s.data) ≠ s.checksum ∧
      Storage.sync Ec [9] s =
        { s with file := Ec.encrypt [9] (Ec.encode s.data),
                 checksum := Ec.hash (Ec.encode s.data) } :=
  c5_open_checksum_mismatch Ec (Ec.encrypt [4] (Ec.encode [])) (Ec.encode []) [] [9]
    (Ec_decrypt_encrypt [4] (Ec.encode []))
    (Ec_decode_encode [])
    rfl
    (by simp [Ec, pad12])
    (fun h => Ec_hash_inj _ _ h)

/-- One mutating or reading storage operation, as issued by the executor's
serial loop; `Delete`, `Clear` carry the nonce their inner `sync` would draw. -/
inductive Op where
  | opSet (k v : Bytes)
  | opGet (k : Bytes)
  | opDelete (n k : Bytes)
  | opClear (n : Bytes)
deriving DecidableEq

/-- State effect of one operation. -/
def applyOp (E : Crates) (s : Storage) : Op → Storage
  | Op.opSet k v => (Storage.set s k v).2
  | Op.opGet k => (Storage.get s k).2
  | Op.opDelete n k => (Storage.delete E n s k).2
  | Op.opClear n => Storage.clear E n s

/-- State effect of a sequence of operations, applied left to right. -/
def applyOps (E : Crates) (s : Storage) (ops : List Op) : Storage :=
  ops.foldl (applyOp E) s

/-- The set of keys that the specification says are present after one more
operation: `Set` adds the key, `Delete` removes it, `Clear` removes all. -/
def stepKeys (K : Finset Bytes) : Op → Finset Bytes
  | Op.opSet k _ => insert k K
  | Op.opGet _ => K
  | Op.opDelete _ k => K.erase k
  | Op.opClear _ => ∅

/-- The set of distinct keys that have been `Set` and not subsequently
`Deleted` or `Cleared` over a whole operation sequence from a fresh store. -/
def specKeys (ops : List Op) : Finset Bytes :=
  ops.foldl stepKeys ∅

/-- The map's key list is duplicate-free and coincides with a key set. -/
def KeysOk (s : Storage) (K : Finset Bytes) : Prop :=
  (mapKeys s.data).Nodup ∧ ∀ k, k ∈ mapKeys s.data ↔ k ∈ K

theorem keysOk_applyOp (E : Crates) (s : Storage) (K : Finset Bytes) (op : Op)
    (h : KeysOk s K) : KeysOk (applyOp E s op) (stepKeys K op) := by
  obtain ⟨hnd, hmem⟩ := h
  cases op with
  | opSet k v =>
    by_cases hk : k ∈ mapKeys s.data
    · have hkeys : mapKeys (applyOp E s (Op.opSet k v)).data = mapKeys s.data := by
        simp only [applyOp, Storage.set]
        exact mapKeys_mapInsert_mem s.data k v hk
      refine ⟨by rw [hkeys]; exact hnd, ?_⟩
      intro k'
      rw [hkeys, stepKeys, Finset.mem_insert, hmem k']
      constructor
      · intro hK; exact Or.inr hK
      · rintro (hEq | hK)
        · subst hEq; rw [← hmem k']; exact hk
        · exact hK
    · have hkeys : mapKeys (applyOp E s (Op.opSet k v)).data = mapKeys s.data ++ [k] := by
        simp only [applyOp, Storage.set]
        exact mapKeys_mapInsert_not_mem s.data k v hk
      refine ⟨?_, ?_⟩
      · rw [hkeys]
        simp [List.nodup_append, hnd, hk]
      · intro k'
        rw [hkeys, stepKeys, Finset.mem_insert, List.mem_append, hmem k']
        simp [or_comm]
  | opGet k =>
    refine ⟨?_, ?_⟩ <;> simp only [applyOp, get_data, stepKeys]
    · exact hnd
    · exact hmem
  | opDelete n k =>
    have hkeys : mapKeys (applyOp E s (Op.opDelete n k)).data =
        (mapKeys s.data).filter (fun k' => decide (k' ≠ k)) := by
      simp only [applyOp, delete_snd, sync_data]
      exact mapKeys_mapRemove s.data k
    refine ⟨?_, ?_⟩
    · rw [hkeys]; exact hnd.filter _
    · intro k'
      rw [hkeys, stepKeys, Finset.mem_erase, List.mem_filter, hmem k']
      simp [and_comm]
  | opClear n =>
    refine ⟨?_, ?_⟩ <;> simp only [applyOp, Storage.clear, sync_data, stepKeys]
    · simp [mapKeys]
    · simp [mapKeys]

theorem keysOk_applyOps (E : Crates) (ops : List Op) (s : Storage) (K : Finset Bytes)
    (h : KeysOk s K) : KeysOk (applyOps E s ops) (ops.foldl stepKeys K) := by
  induction ops generalizing s K with
  | nil => exact h
  | cons op rest ih =>
    exact ih (applyOp E s op) (stepKeys K op) (keysOk_applyOp E s K op h)

/-- C9: after any sequence of operations on a storage opened fresh (empty
map), `List` returns exactly the set of keys that have been `Set` and not
subsequently `Deleted` or `Cleared`, without duplicates, and `Count` equals
the cardinality of that set. -/
theorem c9_count_list (E : Crates) (n0 : Bytes) (ops : List Op) :
    (Storage.list (applyOps E (Storage.new_empty E n0) ops)).Nodup ∧
    (∀ k, k ∈ Storage.list (applyOps E (Storage.new_empty E n0) ops) ↔ k ∈ specKeys ops) ∧
    Storage.count (applyOps E (Storage.new_empty E n0) ops) = (specKeys ops).card := by
  have h0 : KeysOk (Storage.new_empty E n0) (∅ : Finset Bytes) := by
    refine ⟨?_, ?_⟩ <;> simp [Storage.new_empty, mapKeys]
  have h := keysOk_applyOps E ops (Storage.new_empty E n0) ∅ h0
  obtain ⟨hnd, hmem⟩ := h
  refine ⟨hnd, hmem, ?_⟩
  have hfin : (mapKeys (applyOps E (Storage.new_empty E n0) ops).data).toFinset =
      specKeys ops := by
    apply Finset.ext
    intro k
    rw [List.mem_toFinset]
    exact hmem k
  calc Storage.count (applyOps E (Storage.new_empty E n0) ops)
      = (mapKeys (applyOps E (Storage.new_empty E n0) ops).data).length := by
        simp [Storage.count, mapKeys]
    _ = (mapKeys (applyOps E (Storage.new_empty E n0) ops).data).toFinset.card :=
        (List.toFinset_card_of_nodup hnd).symm
    _ = (specKeys ops).card := by rw [hfin]

theorem from_file_inv (E : Crates) (c : Bytes) (s : Storage)
    (h : Storage.from_file E c = some s) :
    ∃ pt m, E.decrypt c = some pt ∧ E.decode pt = some m ∧
      s = { data := m, checksum := E.hash c, file := c, cache := [] } := by
  simp only [Storage.from_file] at h
  cases hd : E.decrypt c with
  | none => rw [hd] at h; simp at h
  | some pt =>
    rw [hd] at h
    have h2 : (match E.decode pt with
        | none => none
        | some decoded =>
          some { data := decoded, checksum := E.hash c, file := c, cache := [] }) =
        some s := h
    cases hm : E.decode pt with
    | none => rw [hm] at h2; simp at h2
    | some m =>
      rw [hm] at h2
      simp at h2
      exact ⟨pt, m, rfl, hm, h2.symm⟩

/-- Every cache entry agrees with the map's current value for its key. -/
def CacheConsistent (s : Storage) : Prop :=
  ∀ k v, (k, v) ∈ s.cache → mapLookup s.data k = some v

theorem cacheConsistent_applyOp (E : Crates) (s : Storage) (op : Op)
    (h : CacheConsistent s) : CacheConsistent (applyOp E s op) := by
  cases op with
  | opSet k v =>
    intro k' v' hmem
    simp only [applyOp, Storage.set] at hmem ⊢
    rw [cachePut] at hmem
    have hmem' : (k', v') ∈ (k, v) :: cachePop s.cache k := List.take_subset _ _ hmem
    rcases List.mem_cons.mp hmem' with hEq | hIn
    · rw [Prod.mk.injEq] at hEq
      obtain ⟨h1, h2⟩ := hEq
      subst h1
      subst h2
      exact mapLookup_mapInsert_self s.data k' v'
    · rw [cachePop, List.mem_filter] at hIn
      obtain ⟨hc, hne⟩ := hIn
      have hne' : k' ≠ k := by simpa using hne
      rw [mapLookup_mapInsert_ne s.data k v k' hne']
      exact h k' v' hc
  | opGet k =>
    have hdata : (Storage.get s k).2.data = s.data := get_data s k
    cases hm : mapLookup s.cache k with
    | some v0 =>
      have hcache : (Storage.get s k).2.cache = (k, v0) :: cachePop s.cache k := by
        simp [Storage.get, cacheGet, hm]
      intro k' v' hmem
      simp only [applyOp] at hmem ⊢
      rw [hcache] at hmem
      rw [hdata]
      rcases List.mem_cons.mp hmem with hEq | hIn
      · rw [Prod.mk.injEq] at hEq
        obtain ⟨h1, h2⟩ := hEq
        subst h1
        subst h2
        exact h k' v' (mapLookup_mem s.cache k' v' hm)
      · rw [cachePop, List.mem_filter] at hIn
        exact h k' v' hIn.1
    | none =>
      cases hd : mapLookup s.data k with
      | some v0 =>
        have hcache : (Storage.get s k).2.cache = cachePut s.cache k v0 := by
          simp [Storage.get, cacheGet, hm, hd]
        intro k' v' hmem
        simp only [applyOp] at hmem ⊢
        rw [hcache, cachePut] at hmem
        rw [hdata]
        have hmem' : (k', v') ∈ (k, v0) :: cachePop s.cache k := List.take_subset _ _ hmem
        rcases List.mem_cons.mp hmem' with hEq | hIn
        · rw [Prod.mk.injEq] at hEq
          obtain ⟨h1, h2⟩ := hEq
          subst h1
          subst h2
          exact hd
        · rw [cachePop, List.mem_filter] at hIn
          exact h k' v' hIn.1
      | none =>
        have hstate : (Storage.get s k).2 = s := by
          simp [Storage.get, cacheGet, hm, hd]
        intro k' v' hmem
        simp only [applyOp] at hmem ⊢
        rw [hstate] at hmem ⊢
        exact h k' v' hmem
  | opDelete n k =>
    intro k' v' hmem
    simp only [applyOp, delete_snd] at hmem ⊢
    rw [sync_cache] at hmem
    rw [sync_data]
    have hmem' : (k', v') ∈ cachePop s.cache k := hmem
    show mapLookup (mapRemove s.data k) k' = some v'
    rw [cachePop, List.mem_filter] at hmem'
    obtain ⟨hc, hne⟩ := hmem'
    have hne' : k' ≠ k := by simpa using hne
    rw [mapRemove, mapLookup_filterNe_ne s.data k k' hne']
    exact h k' v' hc
  | opClear n =>
    intro k' v' hmem
    simp only [applyOp, Storage.clear] at hmem
    rw [sync_cache] at hmem
    have hmem' : (k', v') ∈ ([] : Cache) := hmem
    simp at hmem'

theorem cacheConsistent_applyOps (E : Crates) (ops : List Op) (s : Storage)
    (h : CacheConsistent s) : CacheConsistent (applyOps E s ops) := by
  induction ops generalizing s with
  | nil => exact h
  | cons op rest ih => exact ih (applyOp E s op) (cacheConsistent_applyOp E s op h)

/-- C10: starting from `Open` (a fresh empty storage or one decoded from a
snapshot file), after any sequence of operations every entry in the LRU
cache has its key present in the map with the identical value: the cache
never holds a deleted key or a stale value. -/
theorem c10_cache_agrees_with_map (E : Crates) (n0 content : Bytes) (s0 : Storage)
    (h0 : s0 = Storage.new_empty E n0 ∨ Storage.from_file E content = some s0)
    (ops : List Op) :
    CacheConsistent (applyOps E s0 ops) := by
  have hc : CacheConsistent s0 := by
    rcases h0 with h | h
    · subst h
      intro k v hm
      simp [Storage.new_empty] at hm
    · obtain ⟨pt, m, hdec, hdecode, hs⟩ := from_file_inv E content s0 h
      subst hs
      intro k v hm
      simp at hm
  exact cacheConsistent_applyOps E ops s0 hc

/-- C10 witness: the theorem applied to the concrete model with a fresh
empty storage and one `Set` operation. -/
theorem c10_cache_agrees_with_map_witness :
    CacheConsistent (applyOps Ec (Storage.new_empty Ec [2]) [Op.opSet [0] [1]]) :=
  c10_cache_agrees_with_map Ec [2] [] (Storage.new_empty Ec [2]) (Or.inl rfl)
    [Op.opSet [0] [1]]

/-- Relation between the snapshot file and the dirty-check checksum that
every reachable storage state maintains: the file decrypts and decodes to
some map `d`, and the checksum is either the digest of `d`'s encoding (after
a fresh write) or the digest of the raw file (just after `from_file`). -/
def FileInv (E : Crates) (s : Storage) : Prop :=
  ∃ d, (E.decrypt s.file).bind E.decode = some d ∧
    (s.checksum = E.hash (E.encode d) ∨ s.checksum = E.hash s.file)

theorem fileInv_new_empty (E : Crates)
    (Hrt : ∀ n pt, E.decrypt (E.encrypt n pt) = some pt)
    (Hde : ∀ m, E.decode (E.encode m) = some m)
    (n : Bytes) : FileInv E (Storage.new_empty E n) := by
  refine ⟨[], ?_, Or.inl rfl⟩
  simp [Storage.new_empty, Hrt, Hde]

theorem fileInv_from_file (E : Crates) (c : Bytes) (s : Storage)
    (h : Storage.from_file E c = some s) : FileInv E s := by
  obtain ⟨pt, m, hd, hm, hs⟩ := from_file_inv E c s h
  subst hs
  exact ⟨m, by simp [hd, hm], Or.inr rfl⟩

theorem fileInv_sync (E : Crates)
    (Hrt : ∀ n pt, E.decrypt (E.encrypt n pt) = some pt)
    (Hde : ∀ m, E.decode (E.encode m) = some m)
    (n : Bytes) (s : Storage) (h : FileInv E s) : FileInv E (Storage.sync E n s) := by
  by_cases hcond : E.hash (E.encode s.data) ≠ s.checksum
  · have hsync : Storage.sync E n s =
        { s with file := E.encrypt n (E.encode s.data),
                 checksum := E.hash (E.encode s.data) } := by
      simp [Storage.sync, hcond]
    rw [hsync]
    refine ⟨s.data, ?_, Or.inl rfl⟩
    simp [Hrt, Hde]
  · have heq : E.hash (E.encode s.data) = s.checksum := not_not.mp hcond
    have hsync : Storage.sync E n s = s := by simp [Storage.sync, heq]
    rw [hsync]
    exact h

theorem fileInv_applyOp (E : Crates)
    (Hrt : ∀ n pt, E.decrypt (E.encrypt n pt) = some pt)
    (Hde : ∀ m, E.decode (E.encode m) = some m)
    (s : Storage) (op : Op) (h : FileInv E s) : FileInv E (applyOp E s op) := by
  cases op with
  | opSet k v =>
    obtain ⟨d, hb, hck⟩ := h
    exact ⟨d, hb, hck⟩
  | opGet k =>
    obtain ⟨d, hb, hck⟩ := h
    refine ⟨d, ?_, ?_⟩ <;> simp only [applyOp]
    · rw [get_file]
      exact hb
    · rw [get_file, get_checksum]
      exact hck
  | opDelete n k =>
    have hinner : FileInv E { s with cache := cachePop s.cache k, data := mapRemove s.data k } := by
      obtain ⟨d, hb, hck⟩ := h
      exact ⟨d, hb, hck⟩
    exact fileInv_sync E Hrt Hde n _ hinner
  | opClear n =>
    have hinner : FileInv E { s with data := [], cache := [] } := by
      obtain ⟨d, hb, hck⟩ := h
      exact ⟨d, hb, hck⟩
    exact fileInv_sync E Hrt Hde n _ hinner

theorem fileInv_applyOps (E : Crates)
    (Hrt : ∀ n pt, E.decrypt (E.encrypt n pt) = some pt)
    (Hde : ∀ m, E.decode (E.encode m) = some m)
    (ops : List Op) (s : Storage) (h : FileInv E s) : FileInv E (applyOps E s ops) := by
  induction ops generalizing s with
  | nil => exact h
  | cons op rest ih => exact ih (applyOp E s op) (fileInv_applyOp E Hrt Hde s op h)

theorem reopen_of_fileInv (E : Crates)
    (Hrt : ∀ n pt, E.decrypt (E.encrypt n pt) = some pt)
    (Hde : ∀ m, E.decode (E.encode m) = some m)
    (Hinj : ∀ x y, E.hash x = E.hash y → x = y)
    (Hna : ∀ m, E.decrypt (E.encode m) = none)
    (n : Bytes) (s : Storage) (h : FileInv E s) :
    ∃ s', Storage.from_file E (Storage.sync E n s).file = some s' ∧ s'.data = s.data := by
  by_cases hcond : E.hash (E.encode s.data) ≠ s.checksum
  · have hsync : (Storage.sync E n s).file = E.encrypt n (E.encode s.data) := by
      simp [Storage.sync, hcond]
    rw [hsync]
    refine ⟨{ data := s.data, checksum := E.hash (E.encrypt n (E.encode s.data)),
              file := E.encrypt n (E.encode s.data), cache := [] }, ?_, rfl⟩
    simp [Storage.from_file, Hrt, Hde]
  · have heq : E.hash (E.encode s.data) = s.checksum := not_not.mp hcond
    have hsync : Storage.sync E n s = s := by simp [Storage.sync, heq]
    rw [hsync]
    obtain ⟨d, hb, hck⟩ := h
    cases hp : E.decrypt s.file with
    | none =>
      rw [hp] at hb
      simp at hb
    | some pt =>
      rw [hp] at hb
      simp at hb
      rcases hck with hck | hck
      · have hdd : d = s.data := by
          have h1 : E.encode s.data = E.encode d := Hinj _ _ (heq.trans hck)
          have h2 := congrArg E.decode h1
          rw [Hde s.data, Hde d] at h2
          exact (Option.some.inj h2).symm
        refine ⟨{ data := d, checksum := E.hash s.file, file := s.file, cache := [] },
          ?_, hdd⟩
        simp [Storage.from_file, hp, hb]
      · exfalso
        have h1 : E.encode s.data = s.file := Hinj _ _ (heq.trans hck)
        rw [← h1, Hna] at hp
        cases hp

/-- C8: for any sequence of storage operations applied to a state satisfying
the reachable-state file invariant (established by `new_empty` and
`from_file`), ending in a `sync`, reopening the resulting snapshot file with
the same cipher via `from_file` succeeds and yields exactly the in-memory
map at the time of that `sync`. -/
theorem c8_persistence (E : Crates)
    (Hrt : ∀ n pt, E.decrypt (E.encrypt n pt) = some pt)
    (Hde : ∀ m, E.decode (E.encode m) = some m)
    (Hinj : ∀ x y, E.hash x = E.hash y → x = y)
    (Hna : ∀ m, E.decrypt (E.encode m) = none)
    (s0 : Storage) (hInv : FileInv E s0) (ops : List Op) (n : Bytes) :
    ∃ s', Storage.from_file E (Storage.sync E n (applyOps E s0 ops)).file = some s' ∧
      s'.data = (applyOps E s0 ops).data :=
  reopen_of_fileInv E Hrt Hde Hinj Hna n (applyOps E s0 ops)
    (fileInv_applyOps E Hrt Hde ops s0 hInv)

/-- C8 witness: the theorem applied to the concrete model, starting from a
fresh empty storage, running one `Set` and one `Delete` of another key, and
reopening after the final sync. -/
theorem c8_persistence_witness :
    ∃ s', Storage.from_file Ec
        (Storage.sync Ec [3]
          (applyOps Ec (Storage.new_empty Ec [2]) [Op.opSet [0] [1], Op.opDelete [4] [6]])).file =
        some s' ∧
      s'.data = (applyOps Ec (Storage.new_empty Ec [2]) [Op.opSet [0] [1], Op.opDelete [4] [6]]).data :=
  c8_persistence Ec Ec_decrypt_encrypt Ec_decode_encode Ec_hash_inj Ec_decrypt_encode
    (Storage.new_empty Ec [2])
    (fileInv_new_empty Ec Ec_decrypt_encrypt Ec_decode_encode [2])
    [Op.opSet [0] [1], Op.opDelete [4] [6]] [3]
